import Mathlib

/-!
Shallow embedding of `strawberryfields/parameters.py` (the quantum-operation
parameter model built on top of sympy) together with the state-preparation
merge rule exercised by `pytest/frontend/test_ops_preparation.py`.

The embedding follows the source:

* `RegRefState` models one `RegRef` object (subsystem index, `active` flag,
  optional recorded measurement value); a `World` maps RegRef object
  identities to their current state, so mutation and side effects can be
  stated explicitly.
* `SymExpr` models the sympy expression trees the module builds:
  `MeasuredParameter` atoms (sympy `Symbol` subclass carrying a RegRef),
  `FreeParameter` atoms, numeric constants, sums and products.
* `evalfM` models `p.evalf()` with the world threaded through:
  `MeasuredParameter._eval_evalf` reads `regref.val` and raises
  `ParameterError` when it is unset; every numeric result — including the
  `sympy.Number` a bare atom produces — is normalized by the evalf
  machinery to an inexact Float, and an expression still containing free
  symbols stays partially evaluated.
* `_evaluate` models `parameters._evaluate`: non-symbolic parameters pass
  through unchanged, symbolic ones are evalf-ed and converted by the
  `complex` / `int` / `float` cascade, and `Sequence` inputs are mapped
  elementwise while scalar inputs stay scalar.
-/

namespace StrawberryFields

/-- Python exception classes that the evaluation paths of
`parameters.py` can raise: `ParameterError` (from
`MeasuredParameter._eval_evalf`), `ValueError` (from
`MeasuredParameter.__init__` on an inactive RegRef), and `TypeError`
(raised by `complex()` / `float()` when applied to a sympy expression that
is not a number). -/
inductive PyErr
  | parameterError
  | valueError
  | typeError
deriving DecidableEq, Repr

/-- A measurement result recorded in a RegRef: a Python `int` or `float`
(the values `sympy.Number` accepts and that measurements store). A Float is
modelled by the rational it denotes. -/
inductive MVal
  | int (z : ℤ)
  | float (q : ℚ)
deriving DecidableEq, Repr

/-- State of one `RegRef` object: its subsystem index `ind`, its `active`
flag, and the optional recorded measurement value `val`. -/
structure RegRefState where
  ind : Nat
  active : Bool
  val : Option MVal
deriving DecidableEq, Repr

/-- The mutable world: RegRef object identities (two distinct objects may
share the same index) mapped to their current state. -/
abbrev World := Nat → RegRefState

/-- A sympy numeric atom: an exact `Integer`, an exact non-integer
`Rational`, or an inexact `Float` (modelled by the rational it denotes).
Only exact integers satisfy the sympy `is_integer` predicate; a `Float`
never does. -/
inductive SNum
  | int (z : ℤ)
  | rat (q : ℚ)
  | float (q : ℚ)
deriving DecidableEq, Repr

/-- Rational magnitude denoted by a sympy numeric atom. -/
def SNum.toQ : SNum → ℚ
  | .int z => (z : ℚ)
  | .rat q => q
  | .float q => q

/-- A possibly complex sympy numeric value, `re + im * I`. Real values
carry `im = SNum.int 0`. -/
structure SC where
  re : SNum
  im : SNum
deriving DecidableEq, Repr

/-- A `MeasuredParameter` atom: a sympy `Symbol` subclass instance whose
name is derived from the RegRef index by `__new__` and which holds the
RegRef (here: the RegRef object identity) set by `__init__`. -/
structure MAtom where
  name : String
  regref : Nat
deriving DecidableEq, Repr

/-- A `FreeParameter` atom: a named sympy `Symbol` subclass instance. -/
structure FAtom where
  name : String
deriving DecidableEq, Repr

/-- A sympy expression tree as built by the parameter module: Measured and
Free atoms, numeric constants, and arithmetic combinations. -/
inductive SymExpr
  | measured (a : MAtom)
  | free (a : FAtom)
  | num (c : SC)
  | add (x y : SymExpr)
  | mul (x y : SymExpr)
deriving DecidableEq, Repr

/-- A plain Python value: `int`, `float`, `complex`, or an array (ndarray,
covering vectors and matrices as nested arrays). None of these is a
`sympy.Basic` instance. -/
inductive PyVal
  | int (z : ℤ)
  | float (q : ℚ)
  | complex (re im : ℚ)
  | array (elems : List PyVal)
deriving Repr

/-- An Operation parameter as `parameters.py` receives it: either a plain
Python value (a fixed numeric parameter, kept as-is and not wrapped in any
class) or a sympy expression (Measured or Free atoms and combinations). -/
inductive Param
  | py (v : PyVal)
  | sym (e : SymExpr)
deriving Repr

/-- Argument of `_evaluate`: a single parameter or a `Sequence` of
parameters (`isinstance(params, Sequence)` distinguishes the two; note a
numpy array is not a `collections.abc.Sequence` and counts as scalar). -/
inductive ParamsArg
  | scalar (p : Param)
  | seq (ps : List Param)
deriving Repr

/-- Result of `_evaluate`: a scalar result for scalar input, a list of
results for `Sequence` input. -/
inductive EvalOut
  | scalar (v : PyVal)
  | seq (vs : List PyVal)
deriving Repr

/-- Body of `is_symbolic_par`: `isinstance(p, sympy.Basic)`. -/
def is_symbolic_par : Param → Bool
  | .py _ => false
  | .sym _ => true

/-- Body of `p.atoms(MeasuredParameter)`: the set of MeasuredParameter
atoms occurring in the expression tree. -/
def SymExpr.matoms : SymExpr → Finset MAtom
  | .measured a => {a}
  | .free _ => ∅
  | .num _ => ∅
  | .add x y => x.matoms ∪ y.matoms
  | .mul x y => x.matoms ∪ y.matoms

/-- Body of `get_measurement_deps`: the empty set for a non-symbolic
parameter, otherwise the RegRefs held by the MeasuredParameter atoms of
the expression. -/
def get_measurement_deps (p : Param) : Finset Nat :=
  match p with
  | .py _ => ∅
  | .sym e => e.matoms.image MAtom.regref

/-- Name that `MeasuredParameter.__new__` gives the underlying sympy
Symbol: the letter q followed by the RegRef index. -/
def mpName (w : World) (r : Nat) : String := "q" ++ toString (w r).ind

/-- Construction of a `MeasuredParameter` from a RegRef: `__new__` derives
the Symbol name from the RegRef index, then `__init__` raises `ValueError`
when the RegRef is inactive, otherwise stores the RegRef on the atom. -/
def MeasuredParameter (w : World) (r : Nat) : Except PyErr MAtom :=
  if (w r).active then .ok ⟨mpName w r, r⟩ else .error .valueError

/-- Structural equality of sympy Symbols of one class: two Symbol
instances are equal exactly when their names coincide (sympy even interns
them to the same object). -/
def symEq (a b : MAtom) : Bool := a.name == b.name

/-- Body of `sympy.Number(res)` applied to a recorded measurement value: a
Python `int` becomes an exact `Integer`, a Python `float` becomes a
`Float`; the result is real. -/
def ofMVal : MVal → SC
  | .int z => ⟨.int z, .int 0⟩
  | .float q => ⟨.float q, .int 0⟩

/-- Numeric evaluation turns exact values into Floats at the working
precision (sympy `Integer(5).evalf()` is `5.0`). -/
def SC.floatify (c : SC) : SC := ⟨.float c.re.toQ, .float c.im.toQ⟩

/-- Complex addition as performed by evalf on numeric summands: the result
components are inexact Floats. -/
def SC.addC (a b : SC) : SC :=
  ⟨.float (a.re.toQ + b.re.toQ), .float (a.im.toQ + b.im.toQ)⟩

/-- Complex multiplication as performed by evalf on numeric factors: the
result components are inexact Floats. -/
def SC.mulC (a b : SC) : SC :=
  ⟨.float (a.re.toQ * b.re.toQ - a.im.toQ * b.im.toQ),
   .float (a.re.toQ * b.im.toQ + a.im.toQ * b.re.toQ)⟩

/-- Evalf of a sum: two numeric results combine into a Float number,
anything still containing symbols stays a partially evaluated sum. -/
def addEval : SymExpr → SymExpr → SymExpr
  | .num a, .num b => .num (a.addC b)
  | x, y => .add x y

/-- Evalf of a product: two numeric results combine into a Float number,
anything still containing symbols stays a partially evaluated product. -/
def mulEval : SymExpr → SymExpr → SymExpr
  | .num a, .num b => .num (a.mulC b)
  | x, y => .mul x y

/-- Body of `p.evalf()` with the RegRef world threaded through explicitly.
A `MeasuredParameter` atom reads `regref.val` through
`MeasuredParameter._eval_evalf`, raising `ParameterError` when the value
is not yet recorded; otherwise `_eval_evalf` returns the `sympy.Number` of
the recorded value, which the `Expr.evalf` machinery then normalizes to an
inexact Float at the working precision, as it does every numeric result.
A free Symbol stays itself, numeric constants become Floats, and sums and
products evaluate their arguments (so an exception from any nested atom
propagates) and fold numeric results. Nothing writes to the world. -/
def evalfM : SymExpr → World → (Except PyErr SymExpr) × World
  | .measured a, w =>
      match (w a.regref).val with
      | none => (.error .parameterError, w)
      | some v => (.ok (.num (ofMVal v).floatify), w)
  | .free a, w => (.ok (.free a), w)
  | .num c, w => (.ok (.num c.floatify), w)
  | .add x y, w =>
      match evalfM x w with
      | (.error e, w1) => (.error e, w1)
      | (.ok x1, w1) =>
          match evalfM y w1 with
          | (.error e, w2) => (.error e, w2)
          | (.ok y1, w2) => (.ok (addEval x1 y1), w2)
  | .mul x y, w =>
      match evalfM x w with
      | (.error e, w1) => (.error e, w1)
      | (.ok x1, w1) =>
          match evalfM y w1 with
          | (.error e, w2) => (.error e, w2)
          | (.ok y1, w2) => (.ok (mulEval x1 y1), w2)

/-- View of an evalf result as a number: `some` when the whole expression
reduced to a sympy number, `none` when symbols remain. -/
def SymExpr.asNum : SymExpr → Option SC
  | .num c => some c
  | _ => none

/-- Conversion cascade at the end of `_evaluate.xxx`. Python runs
`if not p.is_real: return complex(p)` — `is_real` is `False` for a number
with nonzero imaginary part and `None` (falsy as well) for an expression
still containing symbols, and `complex()` of such an expression raises
`TypeError`; then `elif p.is_integer: return int(p)` — true only for an
exact `Integer`, never for a `Float`; and `return float(p)` otherwise. -/
def convertEvalf (p : SymExpr) : Except PyErr PyVal :=
  match p.asNum with
  | none => .error .typeError
  | some c =>
      if c.im.toQ ≠ 0 then .ok (.complex c.re.toQ c.im.toQ)
      else match c.re with
        | .int z => .ok (.int z)
        | .rat q => .ok (.float q)
        | .float q => .ok (.float q)

/-- Body of the inner function `xxx` of `_evaluate`: a parameter that is
not symbolic is returned as is; a symbolic one is evalf-ed and converted
by `convertEvalf`. -/
def evalParamM : Param → World → (Except PyErr PyVal) × World
  | .py v, w => (.ok v, w)
  | .sym e, w =>
      match evalfM e w with
      | (.error err, w1) => (.error err, w1)
      | (.ok e1, w1) => (convertEvalf e1, w1)

/-- Elementwise evaluation of a parameter list, as `list(map(xxx, params))`
performs it: left to right, propagating the first exception. -/
def evalListM : List Param → World → (Except PyErr (List PyVal)) × World
  | [], w => (.ok [], w)
  | p :: ps, w =>
      match evalParamM p w with
      | (.error e, w1) => (.error e, w1)
      | (.ok v, w1) =>
          match evalListM ps w1 with
          | (.error e, w2) => (.error e, w2)
          | (.ok vs, w2) => (.ok (v :: vs), w2)

/-- Body of `parameters._evaluate`: a non-`Sequence` argument is wrapped,
mapped and unwrapped again (`ret[0]`), a `Sequence` argument is mapped
elementwise and returned as a list. -/
def _evaluate : ParamsArg → World → (Except PyErr EvalOut) × World
  | .scalar p, w =>
      match evalParamM p w with
      | (.error e, w1) => (.error e, w1)
      | (.ok v, w1) => (.ok (.scalar v), w1)
  | .seq ps, w =>
      match evalListM ps w with
      | (.error e, w1) => (.error e, w1)
      | (.ok vs, w1) => (.ok (.seq vs), w1)

/-- Occurrence test used to state the claims: the RegRef `r` is referenced
by a MeasuredParameter atom somewhere in the expression tree. -/
def SymExpr.mentionsReg (r : Nat) : SymExpr → Bool
  | .measured a => a.regref == r
  | .free _ => false
  | .num _ => false
  | .add x y => x.mentionsReg r || y.mentionsReg r
  | .mul x y => x.mentionsReg r || y.mentionsReg r

/-- Spec-side reading of the `is_symbolic` contract: the parameter is an
expression or atom requiring deferred evaluation, that is, a Measured or
Free atom or a composite containing one. -/
def SymExpr.hasAtom : SymExpr → Bool
  | .measured _ => true
  | .free _ => true
  | .num _ => false
  | .add x y => x.hasAtom || y.hasAtom
  | .mul x y => x.hasAtom || y.hasAtom

/-- Spec-side reading of the `is_symbolic` contract at the parameter
level: false for plain values, and for sympy expressions true exactly when
a Measured or Free atom occurs. -/
def requiresDeferredEval : Param → Bool
  | .py _ => false
  | .sym e => e.hasAtom

/-- Spec-side conversion rule of section 4.1: a non-real evaluated result
yields a complex value, an exact integer yields an integer, anything else
yields a float. -/
def specNumConvert (c : SC) : PyVal :=
  if c.im.toQ ≠ 0 then .complex c.re.toQ c.im.toQ
  else match c.re with
    | .int z => .int z
    | .rat q => .float q
    | .float q => .float q

/-- An Operation of the catalog, as far as the merge rule is concerned: a
kind name and its bound parameters. -/
structure Operation where
  kind : String
  params : List Param

/-- Modelled from the spec: `strawberryfields/ops.py` (the state-preparation
Operation classes and their `merge` method, exercised by
`TestStatePreparationBasics.test_merge`) is not part of the excerpt. Per
the spec, merging a state preparation with a subsequent state preparation
on the same subsystem discards the earlier one: the merge of A then B is
simply B. -/
def statePrepMerge (_a b : Operation) : Operation := b

/-- Spec-side occurrence predicate at the parameter level: a plain value
references no RegRef, a sympy expression references those RegRefs its
MeasuredParameter atoms hold. -/
def paramMentionsReg (p : Param) (r : Nat) : Bool :=
  match p with
  | .py _ => false
  | .sym e => e.mentionsReg r

/-- World with one kind of RegRef: index 0, active, no recorded value. -/
def w0 : World := fun _ => ⟨0, true, none⟩

/-- World where every RegRef is active with recorded measurement value 3. -/
def wVal3 : World := fun _ => ⟨0, true, some (.int 3)⟩

/-- World where every RegRef is inactive. -/
def wOff : World := fun _ => ⟨0, false, none⟩

/-- World where every RegRef has subsystem index 5 and is active, so
distinct RegRef objects share the same index. -/
def wIdx5 : World := fun _ => ⟨5, true, none⟩

theorem evalfM_world_eq (e : SymExpr) (w : World) : (evalfM e w).2 = w := by
  induction e generalizing w with
  | measured a =>
      unfold evalfM
      cases h : (w a.regref).val <;> simp [h]
  | free a => rfl
  | num c => rfl
  | add x y ihx ihy =>
      rcases hxe : evalfM x w with ⟨rx, wx⟩
      have hwx : wx = w := by have h := ihx w; rw [hxe] at h; exact h
      rw [hwx] at hxe
      cases rx with
      | error e1 => simp [evalfM, hxe]
      | ok x1 =>
          rcases hye : evalfM y w with ⟨ry, wy⟩
          have hwy : wy = w := by have h := ihy w; rw [hye] at h; exact h
          rw [hwy] at hye
          cases ry with
          | error e1 => simp [evalfM, hxe, hye]
          | ok y1 => simp [evalfM, hxe, hye]
  | mul x y ihx ihy =>
      rcases hxe : evalfM x w with ⟨rx, wx⟩
      have hwx : wx = w := by have h := ihx w; rw [hxe] at h; exact h
      rw [hwx] at hxe
      cases rx with
      | error e1 => simp [evalfM, hxe]
      | ok x1 =>
          rcases hye : evalfM y w with ⟨ry, wy⟩
          have hwy : wy = w := by have h := ihy w; rw [hye] at h; exact h
          rw [hwy] at hye
          cases ry with
          | error e1 => simp [evalfM, hxe, hye]
          | ok y1 => simp [evalfM, hxe, hye]

theorem evalParamM_world_eq (p : Param) (w : World) : (evalParamM p w).2 = w := by
  cases p with
  | py v => rfl
  | sym e =>
      rcases hfe : evalfM e w with ⟨re, we⟩
      have hwe : we = w := by have h := evalfM_world_eq e w; rw [hfe] at h; exact h
      rw [hwe] at hfe
      cases re with
      | error err => simp [evalParamM, hfe]
      | ok e1 => simp [evalParamM, hfe]

theorem evalListM_world_eq (ps : List Param) (w : World) : (evalListM ps w).2 = w := by
  induction ps generalizing w with
  | nil => rfl
  | cons p ps ih =>
      rcases hp : evalParamM p w with ⟨rp, wp⟩
      have hwp : wp = w := by have h := evalParamM_world_eq p w; rw [hp] at h; exact h
      rw [hwp] at hp
      cases rp with
      | error err => simp [evalListM, hp]
      | ok v =>
          rcases hl : evalListM ps w with ⟨rl, wl⟩
          have hwl : wl = w := by have h := ih w; rw [hl] at h; exact h
          rw [hwl] at hl
          cases rl with
          | error err => simp [evalListM, hp, hl]
          | ok vs => simp [evalListM, hp, hl]

theorem evaluate_world_eq (arg : ParamsArg) (w : World) : (_evaluate arg w).2 = w := by
  cases arg with
  | scalar p =>
      rcases hp : evalParamM p w with ⟨rp, wp⟩
      have hwp : wp = w := by have h := evalParamM_world_eq p w; rw [hp] at h; exact h
      rw [hwp] at hp
      cases rp with
      | error err => simp [_evaluate, hp]
      | ok v => simp [_evaluate, hp]
  | seq ps =>
      rcases hl : evalListM ps w with ⟨rl, wl⟩
      have hwl : wl = w := by have h := evalListM_world_eq ps w; rw [hl] at h; exact h
      rw [hwl] at hl
      cases rl with
      | error err => simp [_evaluate, hl]
      | ok vs => simp [_evaluate, hl]

theorem evalfM_error_eq (e : SymExpr) (w : World) (err : PyErr)
    (h : (evalfM e w).1 = .error err) : err = .parameterError := by
  induction e generalizing w err with
  | measured a =>
      unfold evalfM at h
      cases hv : (w a.regref).val <;> rw [hv] at h <;> simp at h
      exact h.symm
  | free a => simp [evalfM] at h
  | num c => simp [evalfM] at h
  | add x y ihx ihy =>
      rcases hxe : evalfM x w with ⟨rx, wx⟩
      cases rx with
      | error e1 =>
          rw [show (evalfM (SymExpr.add x y) w) = (.error e1, wx) by
                simp [evalfM, hxe]] at h
          simp at h
          subst h
          exact ihx w e1 (by rw [hxe])
      | ok x1 =>
          rcases hye : evalfM y wx with ⟨ry, wy⟩
          cases ry with
          | error e1 =>
              rw [show (evalfM (SymExpr.add x y) w) = (.error e1, wy) by
                    simp [evalfM, hxe, hye]] at h
              simp at h
              subst h
              exact ihy wx e1 (by rw [hye])
          | ok y1 =>
              rw [show (evalfM (SymExpr.add x y) w) = (.ok (addEval x1 y1), wy) by
                    simp [evalfM, hxe, hye]] at h
              simp at h
  | mul x y ihx ihy =>
      rcases hxe : evalfM x w with ⟨rx, wx⟩
      cases rx with
      | error e1 =>
          rw [show (evalfM (SymExpr.mul x y) w) = (.error e1, wx) by
                simp [evalfM, hxe]] at h
          simp at h
          subst h
          exact ihx w e1 (by rw [hxe])
      | ok x1 =>
          rcases hye : evalfM y wx with ⟨ry, wy⟩
          cases ry with
          | error e1 =>
              rw [show (evalfM (SymExpr.mul x y) w) = (.error e1, wy) by
                    simp [evalfM, hxe, hye]] at h
              simp at h
              subst h
              exact ihy wx e1 (by rw [hye])
          | ok y1 =>
              rw [show (evalfM (SymExpr.mul x y) w) = (.ok (mulEval x1 y1), wy) by
                    simp [evalfM, hxe, hye]] at h
              simp at h

theorem evalfM_unresolved (e : SymExpr) (w : World) (r : Nat)
    (hval : (w r).val = none) (hm : e.mentionsReg r = true) :
    (evalfM e w).1 = .error .parameterError := by
  induction e generalizing w with
  | measured a =>
      have ha : a.regref = r := by
        simpa [SymExpr.mentionsReg] using hm
      simp [evalfM, ha, hval]
  | free a => simp [SymExpr.mentionsReg] at hm
  | num c => simp [SymExpr.mentionsReg] at hm
  | add x y ihx ihy =>
      rcases hor : x.mentionsReg r || y.mentionsReg r with _ | _
      · rw [show (SymExpr.add x y).mentionsReg r = (x.mentionsReg r || y.mentionsReg r)
              from rfl, hor] at hm
        exact absurd hm (by simp)
      · rcases hxe : evalfM x w with ⟨rx, wx⟩
        have hwx : wx = w := by have h := evalfM_world_eq x w; rw [hxe] at h; exact h
        cases rx with
        | error e1 =>
            have he1 : e1 = PyErr.parameterError := evalfM_error_eq x w e1 (by rw [hxe])
            simp [evalfM, hxe, he1]
        | ok x1 =>
            rw [hwx] at hxe
            rcases Bool.or_eq_true_iff.mp hor with hx | hy
            · have h := ihx w hval hx
              rw [hxe] at h
              simp at h
            · have h := ihy w hval hy
              rcases hye : evalfM y w with ⟨ry, wy⟩
              rw [hye] at h
              simp at h
              simp [evalfM, hxe, hye, h]
  | mul x y ihx ihy =>
      rcases hor : x.mentionsReg r || y.mentionsReg r with _ | _
      · rw [show (SymExpr.mul x y).mentionsReg r = (x.mentionsReg r || y.mentionsReg r)
              from rfl, hor] at hm
        exact absurd hm (by simp)
      · rcases hxe : evalfM x w with ⟨rx, wx⟩
        have hwx : wx = w := by have h := evalfM_world_eq x w; rw [hxe] at h; exact h
        cases rx with
        | error e1 =>
            have he1 : e1 = PyErr.parameterError := evalfM_error_eq x w e1 (by rw [hxe])
            simp [evalfM, hxe, he1]
        | ok x1 =>
            rw [hwx] at hxe
            rcases Bool.or_eq_true_iff.mp hor with hx | hy
            · have h := ihx w hval hx
              rw [hxe] at h
              simp at h
            · have h := ihy w hval hy
              rcases hye : evalfM y w with ⟨ry, wy⟩
              rw [hye] at h
              simp at h
              simp [evalfM, hxe, hye, h]

theorem convertEvalf_num (c : SC) : convertEvalf (.num c) = .ok (specNumConvert c) := by
  rcases c with ⟨cre, cim⟩
  by_cases h : SNum.toQ cim ≠ 0
  · simp [convertEvalf, SymExpr.asNum, specNumConvert, h]
  · cases cre <;> simp [convertEvalf, SymExpr.asNum, specNumConvert, h]

theorem measuredParameter_ok_eq (w : World) (r : Nat) (a : MAtom)
    (h : MeasuredParameter w r = .ok a) :
    a = ⟨mpName w r, r⟩ ∧ (w r).active = true := by
  unfold MeasuredParameter at h
  by_cases hact : (w r).active = true
  · rw [if_pos hact] at h
    injection h with h2
    subst h2
    exact ⟨rfl, hact⟩
  · rw [if_neg hact] at h
    simp at h

theorem evalListM_ok_spec (ps : List Param) (w : World) (vs : List PyVal) (w2 : World)
    (h : evalListM ps w = (.ok vs, w2)) :
    w2 = w ∧ vs.length = ps.length ∧
    ∀ i (hi : i < ps.length) (hv : i < vs.length),
      (evalParamM (ps.get ⟨i, hi⟩) w).1 = .ok (vs.get ⟨i, hv⟩) := by
  induction ps generalizing w vs w2 with
  | nil =>
      have hun : evalListM ([] : List Param) w = (.ok ([] : List PyVal), w) := rfl
      rw [hun] at h
      simp only [Prod.mk.injEq, Except.ok.injEq] at h
      obtain ⟨hvs, hw2⟩ := h
      subst hw2
      subst hvs
      exact ⟨rfl, rfl, fun i hi hv => absurd hi (Nat.not_lt_zero i)⟩
  | cons p ps ih =>
      rcases hp : evalParamM p w with ⟨rp, wp⟩
      have hwp : wp = w := by have hh := evalParamM_world_eq p w; rw [hp] at hh; exact hh
      rw [hwp] at hp
      cases rp with
      | error err => simp [evalListM, hp] at h
      | ok v =>
          rcases hl : evalListM ps w with ⟨rl, wl⟩
          have hwl : wl = w := by
            have hh := evalListM_world_eq ps w; rw [hl] at hh; exact hh
          rw [hwl] at hl
          cases rl with
          | error err => simp [evalListM, hp, hl] at h
          | ok vs1 =>
              have hun : evalListM (p :: ps) w = (.ok (v :: vs1), w) := by
                simp [evalListM, hp, hl]
              rw [hun] at h
              simp only [Prod.mk.injEq, Except.ok.injEq] at h
              obtain ⟨hvs, hw2⟩ := h
              subst hvs
              subst hw2
              obtain ⟨-, hlen, helem⟩ := ih w vs1 w hl
              refine ⟨rfl, by simp [hlen], ?_⟩
              intro i hi hv
              cases i with
              | zero =>
                  simpa using congrArg Prod.fst hp
              | succ j =>
                  have hj : j < ps.length := by simpa using hi
                  have hjv : j < vs1.length := by simpa using hv
                  simpa using helem j hj hjv

/-- C1: evaluating a MeasuredParameter atom whose RegRef has no recorded
measurement value — on its own or inside any expression containing it —
raises `ParameterError`; evaluating the same unresolved parameter a second
time raises `ParameterError` again, and neither attempt changes the RegRef
world (in particular `val` and `active` of the RegRef behind the atom are
unchanged). -/
theorem measured_unresolved_raises (w : World) (a : MAtom) (e : SymExpr)
    (hval : (w a.regref).val = none) (hm : e.mentionsReg a.regref = true) :
    (_evaluate (.scalar (.sym e)) w).1 = .error .parameterError ∧
    (_evaluate (.scalar (.sym e)) w).2 = w ∧
    (_evaluate (.scalar (.sym e)) ((_evaluate (.scalar (.sym e)) w).2)).1
        = .error .parameterError ∧
    (_evaluate (.scalar (.sym e)) ((_evaluate (.scalar (.sym e)) w).2)).2 = w ∧
    ((_evaluate (.scalar (.sym e)) w).2 a.regref).val = none ∧
    ((_evaluate (.scalar (.sym e)) w).2 a.regref).active = (w a.regref).active := by
  have herr : (evalfM e w).1 = .error .parameterError :=
    evalfM_unresolved e w a.regref hval hm
  have hw : (_evaluate (.scalar (.sym e)) w).2 = w := evaluate_world_eq _ w
  have h1 : (_evaluate (.scalar (.sym e)) w).1 = .error .parameterError := by
    rcases hfe : evalfM e w with ⟨re, we⟩
    rw [hfe] at herr
    simp at herr
    simp [_evaluate, evalParamM, hfe, herr]
  refine ⟨h1, hw, ?_, ?_, ?_, ?_⟩
  · rw [hw]; exact h1
  · rw [hw]; exact hw
  · rw [hw]; exact hval
  · rw [hw]

/-- Witness for C1: RegRef 0 of world `w0` has no recorded value; the bare
Measured atom on it raises `ParameterError` on both evaluation attempts. -/
theorem measured_unresolved_raises_witness :
    (_evaluate (.scalar (.sym (.measured ⟨"q0", 0⟩))) w0).1 = .error .parameterError ∧
    (_evaluate (.scalar (.sym (.measured ⟨"q0", 0⟩))) w0).2 = w0 ∧
    (_evaluate (.scalar (.sym (.measured ⟨"q0", 0⟩)))
        ((_evaluate (.scalar (.sym (.measured ⟨"q0", 0⟩))) w0).2)).1
        = .error .parameterError ∧
    (_evaluate (.scalar (.sym (.measured ⟨"q0", 0⟩)))
        ((_evaluate (.scalar (.sym (.measured ⟨"q0", 0⟩))) w0).2)).2 = w0 ∧
    ((_evaluate (.scalar (.sym (.measured ⟨"q0", 0⟩))) w0).2 0).val = none ∧
    ((_evaluate (.scalar (.sym (.measured ⟨"q0", 0⟩))) w0).2 0).active
        = (w0 0).active :=
  measured_unresolved_raises w0 ⟨"q0", 0⟩ (.measured ⟨"q0", 0⟩) rfl rfl

/-- C2 counterexample: with the recorded measurement value 3 on RegRef 0,
evaluating the MeasuredParameter returns the Python float 3.0, not the
integer 3 as claimed — the evalf machinery normalizes the `sympy.Number`
of the recorded value to an inexact Float, whose `is_integer` is falsy, so
the integer branch of the conversion cascade is not taken. -/
theorem measured_resolved_not_integer :
    (_evaluate (.scalar (.sym (.measured ⟨"q0", 0⟩))) wVal3).1
      = .ok (.scalar (.float ((3 : ℤ) : ℚ))) ∧
    PyVal.float ((3 : ℤ) : ℚ) ≠ PyVal.int 3 :=
  ⟨rfl, fun h => nomatch h⟩

/-- C2 amended: once the RegRef carries a recorded measurement value v,
evaluating the MeasuredParameter constructed from it returns v converted
by the rule `specNumConvert` applied to the evalf-normalized (inexact
Float) result: a non-real result gives a complex value, an exact integer
would give an integer, anything else gives a float — and because evalf
normalizes every numeric result to a Float, a recorded int or float v
yields the float of v (so v = 3 yields the float 3.0, not the integer 3);
the world is unchanged. -/
theorem measured_resolved_value_float (w : World) (r : Nat) (a : MAtom) (v : MVal)
    (hc : MeasuredParameter w r = .ok a) (hv : (w r).val = some v) :
    _evaluate (.scalar (.sym (.measured a))) w
      = (.ok (.scalar (specNumConvert (ofMVal v).floatify)), w) ∧
    (∀ z : ℤ, specNumConvert (ofMVal (.int z)).floatify = .float (z : ℚ)) ∧
    (∀ q : ℚ, specNumConvert (ofMVal (.float q)).floatify = .float q) := by
  obtain ⟨ha, -⟩ := measuredParameter_ok_eq w r a hc
  have hreg : a.regref = r := by rw [ha]
  have hev : evalfM (.measured a) w = (.ok (.num (ofMVal v).floatify), w) := by
    simp [evalfM, hreg, hv]
  refine ⟨?_, ?_, ?_⟩
  · simp [_evaluate, evalParamM, hev, convertEvalf_num]
  · intro z
    simp [specNumConvert, ofMVal, SC.floatify, SNum.toQ]
  · intro q
    simp [specNumConvert, ofMVal, SC.floatify, SNum.toQ]

/-- Witness for C2 as amended: with recorded measurement value 3 on RegRef
0 the evaluation returns the Python float 3.0. -/
theorem measured_resolved_value_float_witness :
    _evaluate (.scalar (.sym (.measured ⟨"q0", 0⟩))) wVal3
      = (.ok (.scalar (.float ((3 : ℤ) : ℚ))), wVal3) :=
  (measured_resolved_value_float wVal3 0 ⟨"q0", 0⟩ (.int 3) rfl rfl).1

theorem mem_matoms_image (e : SymExpr) (r : Nat) :
    r ∈ e.matoms.image MAtom.regref ↔ e.mentionsReg r = true := by
  induction e with
  | measured a =>
      simp only [SymExpr.matoms, SymExpr.mentionsReg, Finset.image_singleton,
        Finset.mem_singleton, beq_iff_eq]
      exact eq_comm
  | free a => simp [SymExpr.matoms, SymExpr.mentionsReg]
  | num c => simp [SymExpr.matoms, SymExpr.mentionsReg]
  | add x y ihx ihy =>
      simp [SymExpr.matoms, SymExpr.mentionsReg, Finset.image_union,
        Finset.mem_union, ihx, ihy]
  | mul x y ihx ihy =>
      simp [SymExpr.matoms, SymExpr.mentionsReg, Finset.image_union,
        Finset.mem_union, ihx, ihy]

/-- C3: `get_measurement_deps` returns exactly the set of RegRefs referenced
by MeasuredParameter atoms anywhere in the expression tree, however deeply
nested inside arithmetic combinations, and the empty set whenever the
parameter is not symbolic. -/
theorem get_measurement_deps_exact (p : Param) (r : Nat) :
    (r ∈ get_measurement_deps p ↔ paramMentionsReg p r = true) ∧
    (is_symbolic_par p = false → get_measurement_deps p = ∅) := by
  constructor
  · cases p with
    | py v => simp [get_measurement_deps, paramMentionsReg]
    | sym e => simpa [get_measurement_deps, paramMentionsReg] using mem_matoms_image e r
  · cases p with
    | py v => intro _; rfl
    | sym e => intro h; simp [is_symbolic_par] at h

/-- Witness for C3: a plain numeric parameter is not symbolic and has empty
dependency set. -/
theorem get_measurement_deps_exact_witness :
    get_measurement_deps (Param.py (PyVal.int 0)) = ∅ :=
  (get_measurement_deps_exact (Param.py (PyVal.int 0)) 0).2 rfl

/-- Instance from the claim text: for Measured(r1) + 2 * Measured(r2) the
dependency set is exactly the pair of the two RegRefs. -/
theorem get_measurement_deps_example :
    get_measurement_deps (Param.sym (.add (.measured ⟨"q1", 1⟩)
        (.mul (.num ⟨.int 2, .int 0⟩) (.measured ⟨"q2", 2⟩)))) = {1, 2} := by
  decide

/-- C4 counterexample: evaluating a never-substituted FreeParameter when a
concrete number is strictly required fails with `TypeError`, raised by the
`complex()` conversion applied to the still-symbolic evalf result, and not
with `ParameterError` as claimed. -/
theorem free_unbound_not_parameterError :
    (_evaluate (.scalar (.sym (.free ⟨"x"⟩))) w0).1 = .error .typeError ∧
    PyErr.typeError ≠ PyErr.parameterError :=
  ⟨rfl, by decide⟩

/-- C4 amended: evaluating a never-substituted FreeParameter when a
concrete number is strictly required fails deterministically, but with
`TypeError` (from the numeric conversion of the unevaluated symbol) rather
than `ParameterError`; the RegRef world is untouched. -/
theorem free_unbound_raises_typeError (w : World) (n : String) :
    (_evaluate (.scalar (.sym (.free ⟨n⟩))) w).1 = .error .typeError ∧
    (_evaluate (.scalar (.sym (.free ⟨n⟩))) w).2 = w :=
  ⟨rfl, rfl⟩

/-- C5: a non-symbolic input passes through evaluation unchanged, whatever
value it is (numeric scalar or array); a Sequence input evaluates to a
sequence of the same length with elementwise results in the same order; a
scalar input always evaluates to a scalar result and a Sequence input to a
sequence, so no accidental singleton wrapping or unwrapping occurs; the
world is unchanged. -/
theorem evaluate_shape (w : World) :
    (∀ v, _evaluate (.scalar (.py v)) w = (.ok (.scalar v), w)) ∧
    (∀ ps vs w2, _evaluate (.seq ps) w = (.ok (.seq vs), w2) →
      w2 = w ∧ vs.length = ps.length ∧
      ∀ i (hi : i < ps.length) (hv : i < vs.length),
        (evalParamM (ps.get ⟨i, hi⟩) w).1 = .ok (vs.get ⟨i, hv⟩)) ∧
    (∀ p r w2, _evaluate (.scalar p) w = (r, w2) →
      ∀ out, r = .ok out → ∃ v, out = .scalar v) ∧
    (∀ ps r w2, _evaluate (.seq ps) w = (r, w2) →
      ∀ out, r = .ok out → ∃ vs, out = .seq vs) := by
  refine ⟨fun v => rfl, ?_, ?_, ?_⟩
  · intro ps vs w2 h
    rcases hl : evalListM ps w with ⟨rl, wl⟩
    cases rl with
    | error err =>
        rw [show _evaluate (.seq ps) w = (.error err, wl) by simp [_evaluate, hl]] at h
        simp at h
    | ok vs1 =>
        rw [show _evaluate (.seq ps) w = (.ok (.seq vs1), wl) by simp [_evaluate, hl]] at h
        simp only [Prod.mk.injEq, Except.ok.injEq, EvalOut.seq.injEq] at h
        obtain ⟨hvs, hw2⟩ := h
        subst hvs
        subst hw2
        exact evalListM_ok_spec ps w vs1 wl hl
  · intro p r w2 h out hout
    rcases hp : evalParamM p w with ⟨rp, wp⟩
    cases rp with
    | error err =>
        rw [show _evaluate (.scalar p) w = (.error err, wp) by simp [_evaluate, hp]] at h
        simp only [Prod.mk.injEq] at h
        obtain ⟨hr, -⟩ := h
        rw [← hr] at hout
        simp at hout
    | ok v =>
        rw [show _evaluate (.scalar p) w = (.ok (.scalar v), wp) by simp [_evaluate, hp]] at h
        simp only [Prod.mk.injEq] at h
        obtain ⟨hr, -⟩ := h
        rw [← hr] at hout
        injection hout with hout2
        exact ⟨v, hout2.symm⟩
  · intro ps r w2 h out hout
    rcases hl : evalListM ps w with ⟨rl, wl⟩
    cases rl with
    | error err =>
        rw [show _evaluate (.seq ps) w = (.error err, wl) by simp [_evaluate, hl]] at h
        simp only [Prod.mk.injEq] at h
        obtain ⟨hr, -⟩ := h
        rw [← hr] at hout
        simp at hout
    | ok vs1 =>
        rw [show _evaluate (.seq ps) w = (.ok (.seq vs1), wl) by simp [_evaluate, hl]] at h
        simp only [Prod.mk.injEq] at h
        obtain ⟨hr, -⟩ := h
        rw [← hr] at hout
        injection hout with hout2
        exact ⟨vs1, hout2.symm⟩

/-- Witness for C5: the singleton sequence holding the plain integer 7
evaluates elementwise to the integer 7 at position 0. -/
theorem evaluate_shape_witness :
    (evalParamM (Param.py (PyVal.int 7)) w0).1 = .ok (PyVal.int 7) :=
  ((evaluate_shape w0).2.1 [Param.py (PyVal.int 7)] [PyVal.int 7] w0 rfl).2.2 0
    (by decide) (by decide)

/-- C6 counterexample: the sympy numeric constant 3 is an instance of the
symbolic base class, so `is_symbolic_par` reports true, yet it is an
immediate numeric value that contains no Measured or Free atom and requires
no deferred evaluation — refuting the claimed equivalence. Such constants
arise from parameter arithmetic itself: a Measured atom multiplied by zero
collapses to the sympy integer 0 under automatic simplification. -/
theorem is_symbolic_constant_cex :
    is_symbolic_par (Param.sym (.num ⟨.int 3, .int 0⟩)) = true ∧
    requiresDeferredEval (Param.sym (.num ⟨.int 3, .int 0⟩)) = false :=
  ⟨rfl, rfl⟩

/-- C6 amended: `is_symbolic_par` is true exactly when the parameter is a
sympy expression; every Measured or Free atom and every composite
containing one is symbolic, and every plain-number Fixed parameter is not,
but a symbolic numeric constant also counts as symbolic even though it
requires no deferred evaluation. -/
theorem is_symbolic_par_spec :
    (∀ p, is_symbolic_par p = true ↔ ∃ e, p = Param.sym e) ∧
    (∀ p, requiresDeferredEval p = true → is_symbolic_par p = true) ∧
    (∀ v, is_symbolic_par (Param.py v) = false) := by
  refine ⟨fun p => ?_, fun p h => ?_, fun v => rfl⟩
  · cases p with
    | py v => simp [is_symbolic_par]
    | sym e => simp [is_symbolic_par]
  · cases p with
    | py v => simp [requiresDeferredEval] at h
    | sym e => rfl

/-- Witness for C6 as amended: a Free atom is symbolic. -/
theorem is_symbolic_par_spec_witness :
    is_symbolic_par (Param.sym (.free ⟨"x"⟩)) = true :=
  is_symbolic_par_spec.2.1 (Param.sym (.free ⟨"x"⟩)) rfl

/-- C7: constructing a MeasuredParameter from an inactive RegRef fails
immediately with `ValueError`; construction from an active RegRef succeeds
(for every world, hence regardless of whether a measurement value is
recorded on the RegRef). -/
theorem measuredParameter_construction (w : World) (r : Nat) :
    ((w r).active = false → MeasuredParameter w r = .error .valueError) ∧
    ((w r).active = true → MeasuredParameter w r = .ok ⟨mpName w r, r⟩) := by
  constructor
  · intro h
    simp [MeasuredParameter, h]
  · intro h
    simp [MeasuredParameter, h]

/-- Witness for C7: construction fails on the inactive world `wOff` and
succeeds on the active world `wVal3` even though a value is recorded. -/
theorem measuredParameter_construction_witness :
    MeasuredParameter wOff 0 = .error .valueError ∧
    MeasuredParameter wVal3 0 = .ok ⟨"q0", 0⟩ :=
  ⟨(measuredParameter_construction wOff 0).1 rfl,
   (measuredParameter_construction wVal3 0).2 rfl⟩

/-- C8: any two MeasuredParameter atoms constructed from the same RegRef
carry the same name, which is the letter q followed by the RegRef index and
depends on nothing but that index, and the symbolic engine recognizes the
two atoms as equal (`symEq`, sympy Symbol equality by name). -/
theorem measured_same_regref_identical (w : World) (r : Nat) (a1 a2 : MAtom)
    (h1 : MeasuredParameter w r = .ok a1) (h2 : MeasuredParameter w r = .ok a2) :
    a1.name = "q" ++ toString (w r).ind ∧ a2.name = a1.name ∧
    symEq a1 a2 = true ∧
    (∀ w2 r2, (w2 r2).ind = (w r).ind → mpName w2 r2 = mpName w r) := by
  obtain ⟨ha1, -⟩ := measuredParameter_ok_eq w r a1 h1
  obtain ⟨ha2, -⟩ := measuredParameter_ok_eq w r a2 h2
  subst ha1
  subst ha2
  refine ⟨rfl, rfl, by simp [symEq], ?_⟩
  intro w2 r2 hind
  simp [mpName, hind]

/-- Witness for C8: the two atoms built from RegRef 0 of `w0` coincide and
compare equal. -/
theorem measured_same_regref_identical_witness :
    symEq ⟨"q0", 0⟩ ⟨"q0", 0⟩ = true :=
  (measured_same_regref_identical w0 0 ⟨"q0", 0⟩ ⟨"q0", 0⟩ rfl rfl).2.2.1

/-- C9: merging two state-preparation Operations on the same single target
yields the later one: merge(A, B) = B and merge(B, A) = A. The merge rule
is modelled from the spec because `ops.py` is not part of the excerpt. -/
theorem statePrepMerge_later (A B : Operation) :
    statePrepMerge A B = B ∧ statePrepMerge B A = A :=
  ⟨rfl, rfl⟩

/-- C10: two distinct RegRef objects that share the same subsystem index
and are both active yield MeasuredParameter atoms with the same name,
recognized as equal by the symbolic engine, although the atoms hold
distinct RegRef objects — atom equality is determined solely by the name
derived from the index, not by RegRef object identity. -/
theorem measured_same_index_equal (w : World) (r1 r2 : Nat) (a1 a2 : MAtom)
    (hne : r1 ≠ r2) (hind : (w r1).ind = (w r2).ind)
    (h1 : MeasuredParameter w r1 = .ok a1) (h2 : MeasuredParameter w r2 = .ok a2) :
    a1.name = a2.name ∧ symEq a1 a2 = true ∧ a1.regref ≠ a2.regref := by
  obtain ⟨ha1, -⟩ := measuredParameter_ok_eq w r1 a1 h1
  obtain ⟨ha2, -⟩ := measuredParameter_ok_eq w r2 a2 h2
  subst ha1
  subst ha2
  refine ⟨by simp [mpName, hind], by simp [symEq, mpName, hind], by simpa using hne⟩

/-- Witness for C10: in `wIdx5` the RegRef objects 0 and 1 both carry index
5; their atoms are named q5 and compare equal. -/
theorem measured_same_index_equal_witness :
    symEq ⟨"q5", 0⟩ ⟨"q5", 1⟩ = true :=
  (measured_same_index_equal wIdx5 0 1 ⟨"q5", 0⟩ ⟨"q5", 1⟩ (by decide) rfl rfl rfl).2.1

end StrawberryFields
